import Mathlib

/-!
Verification of the py-broom `finder` package (Go), shallowly embedded in Lean.

Strings are modelled as `List Char` (the analysed sources are ASCII Python
text, so byte-wise Go string operations and `List Char` operations agree).
The Go regular expressions built by `buildCallPatterns` and used by
`FindMethods` are translated into explicit, equivalent scanners: each Go
pattern is deterministic on the inputs the program feeds it (the method name
is always a Python identifier captured by `FindMethods`), so greedy runs and
alternation unfold into the structural recursions below.

Concurrency (`FindMethods` and `AnalyzeMethodUsages` fan out one goroutine
per unit and fan results in through a channel) is modelled sequentially:
each unit's result is a pure function of its own inputs, and the channel
only permutes the collected list, so per-element properties are unaffected.
The external `rg` subprocess is modelled by an explicit outcome value
(`RgOutcome`) covering the three cases the Go error handling distinguishes.
-/

namespace Finder

/-- Go regexp `\s` character class: `[\t\n\f\r ]`. -/
def isSpaceChar (c : Char) : Bool :=
  c = ' ' || c = '\t' || c = '\n' || c = '\x0c' || c = '\r'

/-- Go regexp `\w` character class: `[0-9A-Za-z_]`. -/
def isWordChar (c : Char) : Bool :=
  c.isAlphanum || c = '_'

/-- `unicode.IsSpace` restricted to ASCII, as used by `strings.TrimSpace`. -/
def isGoSpace (c : Char) : Bool :=
  c = ' ' || c = '\t' || c = '\n' || c = '\x0b' || c = '\x0c' || c = '\r'

/-- `strings.TrimSpace`. -/
def trimSpace (l : List Char) : List Char :=
  ((l.dropWhile isGoSpace).reverse.dropWhile isGoSpace).reverse

/-- `strings.Contains hay needle` on character lists. -/
def containsSub : List Char → List Char → Bool
  | [], needle => needle.isEmpty
  | c :: t, needle => needle.isPrefixOf (c :: t) || containsSub t needle

/-- Index of the first occurrence of `c`, as `strings.Index` for a
one-character separator. -/
def indexOfChar (c : Char) : List Char → Option Nat
  | [] => none
  | d :: t => if d = c then some 0 else (indexOfChar c t).map (fun n => n + 1)

/-- Strip a literal expected run from the front, returning the remainder. -/
def dropPrefixQ : List Char → List Char → Option (List Char)
  | [], l => some l
  | _ :: _, [] => none
  | p :: ps, c :: cs => if p = c then dropPrefixQ ps cs else none

/-- The remainder must be whitespace then an opening parenthesis: the regex
fragment `\s*\(` that closes every call/definition pattern. -/
def wsThenParen (l : List Char) : Bool :=
  match l.dropWhile isSpaceChar with
  | '(' :: _ => true
  | _ => false

/-- The Go call-type enumeration (`CallType` constants of the source). -/
inductive CallType where
  | CallTypeInstance
  | CallTypeClass
  | CallTypeStatic
  | CallTypeFunction
  | CallTypeDefinition
  | CallTypeDecorator
deriving DecidableEq

/-- The literal characters of the keyword `def`. -/
def defKw : List Char := ['d', 'e', 'f']

/-- The literal characters of `self.`. -/
def selfDot : List Char := ['s', 'e', 'l', 'f', '.']

/-- The literal characters of `cls.`. -/
def clsDot : List Char := ['c', 'l', 's', '.']

/-- Pattern `^\s*def\s+NAME\s*\(` (the `CallTypeDefinition` entry of
`buildCallPatterns`).  `NAME` is a quoted identifier, so the greedy runs of
the regex are forced and the match is this single deterministic scan. -/
def matchDefinition (name line : List Char) : Bool :=
  match dropPrefixQ defKw (line.dropWhile isSpaceChar) with
  | none => false
  | some r1 =>
    match r1 with
    | [] => false
    | c :: _ =>
      if isSpaceChar c then
        match dropPrefixQ name (r1.dropWhile isSpaceChar) with
        | some r2 => wsThenParen r2
        | none => false
      else false

/-- Recogniser for the regex fragment `(\w+\.)*`: a sequence of non-empty
word-character groups each terminated by a dot.  The flag records whether we
are inside a group (having consumed at least one word character of it). -/
def dottedGroupsAux : Bool → List Char → Bool
  | seen, [] => !seen
  | seen, c :: cs =>
    if isWordChar c then dottedGroupsAux true cs
    else if c = '.' then (if seen then dottedGroupsAux false cs else false)
    else false

/-- Drop the suffix `suf` from `l`, returning the remaining front part. -/
def dropSuffixQ (suf l : List Char) : Option (List Char) :=
  if suf.isSuffixOf l then some (l.take (l.length - suf.length)) else none

/-- Pattern `^\s*@(\w+\.)*NAME\s*$` (the `CallTypeDecorator` entry).  The
trailing `\s*$` forces the maximal trailing-whitespace run, after which the
line core must end in `NAME` preceded by a `(\w+\.)*` qualifier. -/
def matchDecorator (name line : List Char) : Bool :=
  match line.dropWhile isSpaceChar with
  | '@' :: r =>
    let core := (r.reverse.dropWhile isSpaceChar).reverse
    match dropSuffixQ name core with
    | some p => dottedGroupsAux false p
    | none => false
  | _ => false

def isWordCharOpt : Option Char → Bool
  | none => false
  | some c => isWordChar c

/-- Try `check prev suffix` at every position of the line, tracking the
previous character (`none` at the start of the line).  This realises the
unanchored search of `regexp.MatchString`. -/
def scanMatch (check : Option Char → List Char → Bool) : Option Char → List Char → Bool
  | prev, [] => check prev []
  | prev, c :: cs => check prev (c :: cs) || scanMatch check (some c) cs

/-- Pattern `\bself\.NAME\s*\(` (the `CallTypeInstance` entry).  `self`
starts with a word character, so the word boundary holds exactly when the
previous character is absent or not a word character. -/
def matchInstance (name line : List Char) : Bool :=
  scanMatch
    (fun prev l =>
      !isWordCharOpt prev &&
        (match dropPrefixQ selfDot l with
         | some r1 =>
           match dropPrefixQ name r1 with
           | some r2 => wsThenParen r2
           | none => false
         | none => false))
    none line

/-- Pattern `\bcls\.NAME\s*\(` (the `CallTypeClass` entry). -/
def matchClass (name line : List Char) : Bool :=
  scanMatch
    (fun prev l =>
      !isWordCharOpt prev &&
        (match dropPrefixQ clsDot l with
         | some r1 =>
           match dropPrefixQ name r1 with
           | some r2 => wsThenParen r2
           | none => false
         | none => false))
    none line

/-- Pattern `\b[A-Z][a-zA-Z0-9_]*\.NAME\s*\(` (the `CallTypeStatic` entry).
The class `[a-zA-Z0-9_]*` cannot absorb the dot, so the run before the dot
is the maximal word run after the uppercase head. -/
def matchStatic (name line : List Char) : Bool :=
  scanMatch
    (fun prev l =>
      !isWordCharOpt prev &&
        (match l with
         | [] => false
         | c :: rest =>
           if c.isUpper then
             match rest.dropWhile isWordChar with
             | '.' :: r2 =>
               match dropPrefixQ name r2 with
               | some r3 => wsThenParen r3
               | none => false
             | _ => false
           else false))
    none line

/-- Pattern `(?:^|[^\w.])NAME\s*\(` (the `CallTypeFunction` entry): the
occurrence of the name must sit at the line start or after a character that
is neither a word character nor a dot. -/
def matchFunction (name line : List Char) : Bool :=
  scanMatch
    (fun prev l =>
      (match prev with
       | none => true
       | some c => !(isWordChar c || c = '.')) &&
        (match dropPrefixQ name l with
         | some r1 => wsThenParen r1
         | none => false))
    none line

/-- The pattern loop of `classifyUsage`: the patterns of
`buildCallPatterns` are tried in their fixed order and the first match
wins; a `CallTypeFunction` match is additionally skipped (falling through
to no match, since it is the last pattern) when the line contains a dot
immediately followed by the method name anywhere
(`strings.Contains(line, "."+methodName)`). -/
def runPatterns (line name : List Char) : Option CallType :=
  if matchDefinition name line then some CallType.CallTypeDefinition
  else if matchDecorator name line then some CallType.CallTypeDecorator
  else if matchInstance name line then some CallType.CallTypeInstance
  else if matchClass name line then some CallType.CallTypeClass
  else if matchStatic name line then some CallType.CallTypeStatic
  else if matchFunction name line && !containsSub line ('.' :: name) then
    some CallType.CallTypeFunction
  else none

def headIsHash : List Char → Bool
  | '#' :: _ => true
  | _ => false

/-- `classifyUsage(line, methodName)` of the source.  `none` models the Go
return `("", false)`. -/
def classifyUsage (line name : List Char) : Option CallType :=
  if headIsHash (trimSpace line) then none
  else
    match indexOfChar '#' line with
    | some idx =>
      let codePart := line.take idx
      if containsSub codePart name then runPatterns codePart name
      else none
    | none => runPatterns line name

/-- `isImportLine` of the source: the trimmed line starts with
`import ` or `from `. -/
def isImportLine (line : List Char) : Bool :=
  let t := trimSpace line
  List.isPrefixOf ['i', 'm', 'p', 'o', 'r', 't', ' '] t ||
    List.isPrefixOf ['f', 'r', 'o', 'm', ' '] t

/-- `strings.SplitN(raw, ":", 4)`: split at the first three colons; the
fourth part keeps any further colons. -/
def splitN4 (l : List Char) : List (List Char) :=
  match indexOfChar ':' l with
  | none => [l]
  | some i1 =>
    let p1 := l.take i1
    let r1 := l.drop (i1 + 1)
    match indexOfChar ':' r1 with
    | none => [p1, r1]
    | some i2 =>
      let p2 := r1.take i2
      let r2 := r1.drop (i2 + 1)
      match indexOfChar ':' r2 with
      | none => [p1, p2, r2]
      | some i3 => [p1, p2, r2.take i3, r2.drop (i3 + 1)]

/-- The `Usage` struct.  The Go field `CallType` is spelt `callType` here
because the field name would otherwise shadow the type. -/
structure Usage where
  Location : List Char
  callType : CallType
  Context : List Char
deriving DecidableEq

/-- The `FileFilter` struct. -/
structure FileFilter where
  SkipImports : Bool
  SkipTests : Bool
  SkipDefinitions : Bool
deriving DecidableEq

/-- `ParseUsages(rawUsages, methodName, filters, definedFile)`:
each raw `path:line:col:content` line with at least four colon-separated
fields is filtered (imports, classification, skip-definitions) and turned
into a `Usage`, in input order. -/
def ParseUsages : List (List Char) → List Char → FileFilter → List Char → List Usage
  | [], _, _, _ => []
  | raw :: rest, name, filters, definedFile =>
    let tailUsages := ParseUsages rest name filters definedFile
    match splitN4 raw with
    | [fp, lineNo, colNo, lineContent] =>
      if filters.SkipImports && isImportLine lineContent then tailUsages
      else
        match classifyUsage lineContent name with
        | none => tailUsages
        | some ct =>
          let keep : List Usage :=
            { Location := fp ++ ':' :: lineNo ++ ':' :: colNo
              callType := ct
              Context := trimSpace lineContent } :: tailUsages
          if filters.SkipDefinitions && ct = CallType.CallTypeDefinition then
            if fp ≠ definedFile then tailUsages else keep
          else keep
    | _ => tailUsages

/-- The `Method` struct. -/
structure Method where
  Name : List Char
  Filename : List Char
  LineNo : Nat
deriving DecidableEq

/-- The `MethodFilter` struct. -/
structure MethodFilter where
  SkipPrivate : Bool
deriving DecidableEq

/-- `isPrivateMethod`: the name starts with an underscore. -/
def isPrivateMethod : List Char → Bool
  | '_' :: _ => true
  | _ => false

/-- One attempt of the `FindMethods` regex
`def\s+([a-zA-Z_][a-zA-Z0-9_]*)\s*\(` at the current position, returning
the captured identifier.  The identifier run is maximal (the following
`\s*\(` cannot start with a word character), so the scan is deterministic. -/
def defMatchAt (l : List Char) : Option (List Char) :=
  match dropPrefixQ defKw l with
  | none => none
  | some r1 =>
    match r1 with
    | [] => none
    | c :: _ =>
      if isSpaceChar c then
        match r1.dropWhile isSpaceChar with
        | [] => none
        | c2 :: rest2 =>
          if c2.isAlpha || c2 = '_' then
            let run := rest2.takeWhile isWordChar
            if wsThenParen (rest2.drop run.length) then some (c2 :: run)
            else none
          else none
      else none

/-- `regexp.FindStringSubmatch` for the definition regex: the leftmost
position at which `defMatchAt` succeeds (the regex has no `\b` anchor, so
every position is tried). -/
def findDefMatch : List Char → Option (List Char)
  | [] => none
  | c :: t =>
    match defMatchAt (c :: t) with
    | some name => some name
    | none => findDefMatch t

/-- `strings.Split(s, "\n")` (the accumulator holds the current line in
reverse). -/
def splitLinesAux : List Char → List Char → List (List Char)
  | acc, [] => [acc.reverse]
  | acc, c :: cs =>
    if c = '\n' then acc.reverse :: splitLinesAux [] cs
    else splitLinesAux (c :: acc) cs

def splitLines (l : List Char) : List (List Char) :=
  splitLinesAux [] l

/-- The per-line loop of a `FindMethods` goroutine: `lineNo` counts the
0-based `range` index, and a matched, non-skipped line contributes a
`Method` at `lineNo + 1`. -/
def methodsOfLines (path : List Char) (filters : MethodFilter) :
    Nat → List (List Char) → List Method
  | _, [] => []
  | lineNo, l :: ls =>
    match findDefMatch l with
    | some name =>
      if filters.SkipPrivate && isPrivateMethod name then
        methodsOfLines path filters (lineNo + 1) ls
      else
        { Name := name, Filename := path, LineNo := lineNo + 1 } ::
          methodsOfLines path filters (lineNo + 1) ls
    | none => methodsOfLines path filters (lineNo + 1) ls

/-- A file handed to `FindMethods`: its path together with the result of
`readEntireFile` (`none` models a read error, which the goroutine logs and
turns into zero methods for that file). -/
structure FileInput where
  Path : List Char
  content : Option (List Char)
deriving DecidableEq

/-- The body of one `FindMethods` goroutine. -/
def fileMethods (filters : MethodFilter) (f : FileInput) : List Method :=
  match f.content with
  | none => []
  | some data => methodsOfLines f.Path filters 0 (splitLines data)

/-- `FindMethods(files, filters)`.  The goroutine fan-in delivers the
per-file lists in an unspecified interleaving; this sequential model
concatenates them in input order, which preserves membership. -/
def FindMethods : List FileInput → MethodFilter → List Method
  | [], _ => []
  | f :: fs, filters => fileMethods filters f ++ FindMethods fs filters

/-- Outcome of the `rg` subprocess started by `searchMethodUsages`:
`output` is a successful `cmd.Output()`; `exitCode c` is an
`*exec.ExitError` with exit code `c`; `execFail` is any other error (for
example a missing binary). -/
inductive RgOutcome where
  | output (raw : List Char)
  | exitCode (code : Int)
  | execFail
deriving DecidableEq

/-- The error handling and output splitting of `searchMethodUsages`:
exit code 1 (ripgrep for "no matches") becomes a successful empty list,
any other error propagates (`none`), and successful output is trimmed and
split into lines. -/
def searchMethodUsages : RgOutcome → Option (List (List Char))
  | RgOutcome.output raw => some (splitLines (trimSpace raw))
  | RgOutcome.exitCode c => if c = 1 then some [] else none
  | RgOutcome.execFail => none

/-- The `MethodUsage` struct.  The Go map `UsagesByType` is modelled as a
total function `CallType → Nat` (reading an absent key of a Go map yields
the zero value).  The Go field `Method` is spelt `method` here because the
field name would otherwise shadow the type. -/
structure MethodUsage where
  method : Method
  Usages : List Usage
  UsagesByType : CallType → Nat
  TotalUsages : Nat

/-- One step of the counting loop `usagesByType[usage.CallType]++`. -/
def countByTypeStep (m : CallType → Nat) (u : Usage) : CallType → Nat :=
  fun ct => if ct = u.callType then m ct + 1 else m ct

/-- The body of one `AnalyzeMethodUsages` goroutine, given the outcome of
its `rg` invocation: a search error yields the logged empty record, a
successful search parses the raw lines and tallies them. -/
def analyzeOne (filters : FileFilter) (m : Method) (outcome : RgOutcome) : MethodUsage :=
  match searchMethodUsages outcome with
  | none =>
    { method := m, Usages := [], UsagesByType := fun _ => 0, TotalUsages := 0 }
  | some rawUsages =>
    let usages := ParseUsages rawUsages m.Name filters m.Filename
    { method := m
      Usages := usages
      UsagesByType := usages.foldl countByTypeStep (fun _ => 0)
      TotalUsages := usages.length }

/-- `AnalyzeMethodUsages`: one record per method.  Each method is paired
with the outcome of its own `rg` subprocess; the channel fan-in only
permutes the collected records, so the sequential `map` preserves the set
of records produced. -/
def AnalyzeMethodUsages (inputs : List (Method × RgOutcome)) (filters : FileFilter) :
    List MethodUsage :=
  inputs.map (fun p => analyzeOne filters p.1 p.2)

/-- `FilterByUsageCount(results, minUsages, maxUsages)` with the two
`continue` guards of the source. -/
def FilterByUsageCount : List MethodUsage → Int → Int → List MethodUsage
  | [], _, _ => []
  | r :: rs, minUsages, maxUsages =>
    if minUsages ≥ 0 ∧ (r.TotalUsages : Int) < minUsages then
      FilterByUsageCount rs minUsages maxUsages
    else if maxUsages ≥ 0 ∧ (r.TotalUsages : Int) > maxUsages then
      FilterByUsageCount rs minUsages maxUsages
    else r :: FilterByUsageCount rs minUsages maxUsages

/-- `GetCallTypeOrder`. -/
def GetCallTypeOrder : List CallType :=
  [CallType.CallTypeDefinition, CallType.CallTypeInstance, CallType.CallTypeClass,
    CallType.CallTypeStatic, CallType.CallTypeFunction, CallType.CallTypeDecorator]

/-- Go `<` on strings: lexicographic byte order (codepoint order on the
ASCII inputs modelled here). -/
def ltStr : List Char → List Char → Bool
  | [], [] => false
  | [], _ :: _ => true
  | _ :: _, [] => false
  | x :: xs, y :: ys => if x < y then true else if y < x then false else ltStr xs ys

def sortKeyName : List Char := ['n', 'a', 'm', 'e']

def sortKeyFile : List Char := ['f', 'i', 'l', 'e']

def sortKeyUsages : List Char := ['u', 's', 'a', 'g', 'e', 's']

/-- The `less` closure of `SortResults` (after the `strings.ToLower` on the
key): `name` compares names, `file` compares filenames then line numbers,
`usages` compares totals then names, and any other key behaves like
`file`. -/
def lessRecords (sortBy : List Char) (ri rj : MethodUsage) : Bool :=
  if sortBy = sortKeyName then ltStr ri.method.Name rj.method.Name
  else if sortBy = sortKeyFile then
    if ri.method.Filename = rj.method.Filename then
      decide (ri.method.LineNo < rj.method.LineNo)
    else ltStr ri.method.Filename rj.method.Filename
  else if sortBy = sortKeyUsages then
    if ri.TotalUsages = rj.TotalUsages then ltStr ri.method.Name rj.method.Name
    else decide (ri.TotalUsages < rj.TotalUsages)
  else
    if ri.method.Filename = rj.method.Filename then
      decide (ri.method.LineNo < rj.method.LineNo)
    else ltStr ri.method.Filename rj.method.Filename

def insertLess (less : MethodUsage → MethodUsage → Bool) (x : MethodUsage) :
    List MethodUsage → List MethodUsage
  | [] => [x]
  | y :: ys => if less x y then x :: y :: ys else y :: insertLess less x ys

/-- A comparison sort driven by a strict `less` comparator.  `sort.Slice`
is an unspecified comparison sort; every comparison sort agrees with this
insertion sort whenever `less` strictly orders the elements involved, which
is the case in the concrete instances below. -/
def sortLess (less : MethodUsage → MethodUsage → Bool) : List MethodUsage → List MethodUsage
  | [] => []
  | x :: xs => insertLess less x (sortLess less xs)

def toLowerList (l : List Char) : List Char :=
  l.map Char.toLower

/-- `SortResults(results, sortBy, asc)`: the key is lower-cased, and the
descending order negates the whole comparator (`!less(i, j)`). -/
def SortResults (results : List MethodUsage) (sortBy : List Char) (asc : Bool) :
    List MethodUsage :=
  let key := toLowerList sortBy
  if asc then sortLess (lessRecords key) results
  else sortLess (fun i j => !lessRecords key i j) results

/-- The sum of the per-type tallies over all six call types (the order of
`GetCallTypeOrder`). -/
def sumByType (f : CallType → Nat) : Nat :=
  (GetCallTypeOrder.map f).sum

/-- The characters of `bar`. -/
def barName : List Char := ['b', 'a', 'r']

/-- The characters of `foo`. -/
def fooName : List Char := ['f', 'o', 'o']

/-- The characters of `a.py`. -/
def aPyPath : List Char := ['a', '.', 'p', 'y']

/-- The line `self.bar()`. -/
def selfBarLine : List Char := ['s', 'e', 'l', 'f', '.', 'b', 'a', 'r', '(', ')']

/-- The line `Bar.bar()`. -/
def upperBarLine : List Char := ['B', 'a', 'r', '.', 'b', 'a', 'r', '(', ')']

/-- The line `bar()`. -/
def bareBarLine : List Char := ['b', 'a', 'r', '(', ')']

/-- The line `obj.bar()`. -/
def objBarLine : List Char := ['o', 'b', 'j', '.', 'b', 'a', 'r', '(', ')']

/-- The line `x = 1 # bar()`: the symbol occurs only inside the trailing
comment. -/
def commentedBarLine : List Char :=
  ['x', ' ', '=', ' ', '1', ' ', '#', ' ', 'b', 'a', 'r', '(', ')']

/-- The line `y = bar() # call`: a genuine call followed by a trailing
comment; the first `#` sits at index 10. -/
def trailingCommentLine : List Char :=
  ['y', ' ', '=', ' ', 'b', 'a', 'r', '(', ')', ' ', '#', ' ', 'c', 'a', 'l', 'l']

/-- The line `bar(); x.bar()`: a bare call at the line start plus a
lowercase-qualified call later on the same line. -/
def discardLine : List Char :=
  ['b', 'a', 'r', '(', ')', ';', ' ', 'x', '.', 'b', 'a', 'r', '(', ')']

/-- The line `def foo():`. -/
def defFooLine : List Char := ['d', 'e', 'f', ' ', 'f', 'o', 'o', '(', ')', ':']

/-- The raw match `other.py:3:1:def foo():` (a definition-classified match
in a file other than the defining one). -/
def rawOtherDef : List Char :=
  ['o', 't', 'h', 'e', 'r', '.', 'p', 'y', ':', '3', ':', '1', ':',
    'd', 'e', 'f', ' ', 'f', 'o', 'o', '(', ')', ':']

/-- The raw match `main.py:1:1:def foo():` (the defining occurrence). -/
def rawMainDef : List Char :=
  ['m', 'a', 'i', 'n', '.', 'p', 'y', ':', '1', ':', '1', ':',
    'd', 'e', 'f', ' ', 'f', 'o', 'o', '(', ')', ':']

/-- The path `main.py`. -/
def mainPyPath : List Char := ['m', 'a', 'i', 'n', '.', 'p', 'y']

/-- The location `main.py:1:1`. -/
def mainDefLoc : List Char := ['m', 'a', 'i', 'n', '.', 'p', 'y', ':', '1', ':', '1']

/-- Filters with only `SkipDefinitions` set. -/
def skipDefFilters : FileFilter := ⟨false, false, true⟩

/-- Filters with nothing set. -/
def noFilters : FileFilter := ⟨false, false, false⟩

/-- The path `f.py`. -/
def filePyPath : List Char := ['f', '.', 'p', 'y']

/-- A record for a method named `b` defined at `f.py:1`, zero usages. -/
def recTieB : MethodUsage := ⟨⟨['b'], filePyPath, 1⟩, [], fun _ => 0, 0⟩

/-- A record for a method named `a` defined at `f.py:2`, zero usages. -/
def recTieA : MethodUsage := ⟨⟨['a'], filePyPath, 2⟩, [], fun _ => 0, 0⟩

/-- A sample method `foo` defined at `a.py:2`. -/
def wMethod : Method := ⟨fooName, aPyPath, 2⟩

/-- A sample successful `rg` output with two vimgrep match lines. -/
def sampleRgOut : List Char :=
  ['a', '.', 'p', 'y', ':', '2', ':', '1', ':', 'd', 'e', 'f', ' ',
    'f', 'o', 'o', '(', ')', ':', '\n',
    'b', '.', 'p', 'y', ':', '7', ':', '3', ':', 'f', 'o', 'o', '(', ')']

/-- File content `x = 1` on line 1 and `def foo():` on line 2. -/
def w9data : List Char :=
  ['x', ' ', '=', ' ', '1', '\n', 'd', 'e', 'f', ' ', 'f', 'o', 'o', '(', ')', ':']

/-- A readable file `a.py` holding `w9data`. -/
def w9file : FileInput := ⟨aPyPath, some w9data⟩

/-- C5: for the symbol `bar`, `self.bar()` classifies as an instance call,
`Bar.bar()` as a static call, a bare `bar()` (no dot anywhere before it) as
a function call, and `obj.bar()` with a lowercase receiver matches no
pattern at all — in particular it is never reported as a function call. -/
theorem classifyUsage_examples_c5 :
    classifyUsage selfBarLine barName = some CallType.CallTypeInstance
    ∧ classifyUsage upperBarLine barName = some CallType.CallTypeStatic
    ∧ classifyUsage bareBarLine barName = some CallType.CallTypeFunction
    ∧ classifyUsage objBarLine barName = none := by
  decide

/-- C1 (evaluation at the failing input): with `SkipDefinitions` set and
defining file `main.py`, `ParseUsages` drops the definition-classified
match located in `other.py` (a file different from the defining one) and
keeps the one located in `main.py` itself — the reverse of the claimed
suppression rule: the source guard reads `if filepath != definedFile {
continue }`, so the defining occurrence survives and foreign
definition-looking matches are dropped. -/
theorem parseUsages_skipDefinitions_c1 :
    ParseUsages [rawOtherDef, rawMainDef] fooName skipDefFilters mainPyPath
      = [{ Location := mainDefLoc, callType := CallType.CallTypeDefinition,
           Context := defFooLine }] := by
  decide

/-- C2 (counterexample): on `x = 1 # bar()` with symbol `bar`, the
pre-comment portion `x = 1 ` does not contain the symbol; the claim says the
full untruncated line is then still tested against the patterns (which
would yield a function match, as the first conjunct shows), but
`classifyUsage` reports no match instead. -/
theorem classifyUsage_comment_counterexample_c2 :
    runPatterns commentedBarLine barName = some CallType.CallTypeFunction
    ∧ classifyUsage commentedBarLine barName = none := by
  decide

/-- C2 (amended): for every line whose trimmed form does not start with
`#` but which contains a `#` at index `idx`, `classifyUsage` truncates the
line at the first marker before pattern matching; when the pre-comment
portion contains the symbol name the truncated line is the one tested, and
when it does not the line is reported as no match (the full line is not
retested). -/
theorem classifyUsage_comment_truncation_c2 (line name : List Char) (idx : Nat)
    (h0 : headIsHash (trimSpace line) = false)
    (hidx : indexOfChar '#' line = some idx) :
    (containsSub (line.take idx) name = true →
      classifyUsage line name = runPatterns (line.take idx) name)
    ∧ (containsSub (line.take idx) name = false →
      classifyUsage line name = none) := by
  constructor <;> intro hc <;> simp [classifyUsage, h0, hidx, hc]

/-- C2 (witness): the amended theorem applied to `y = bar() # call` with
symbol `bar`, whose first `#` sits at index 10 and whose pre-comment
portion contains the symbol. -/
theorem classifyUsage_comment_truncation_c2_witness :
    classifyUsage trailingCommentLine barName
      = runPatterns (trailingCommentLine.take 10) barName :=
  (classifyUsage_comment_truncation_c2 trailingCommentLine barName 10
    (by decide) (by decide)).1 (by decide)

/-- C4 (counterexample): on `bar(); x.bar()` with symbol `bar`, the
bare-function pattern matches at the very start of the line (second
conjunct: the line begins with `bar(`, so the matched occurrence has no
preceding character at all, in particular not a dot — the pattern itself
already excludes dot-preceded occurrences), yet the match is discarded
because `.bar` occurs elsewhere on the line (third conjunct is the
line-wide containment test the code actually performs), and the line is
reported as unmatched.  The claim's "discarded if and only if the character
immediately preceding the name in the matched text is a dot" therefore
fails in the only-if direction. -/
theorem runPatterns_function_discard_counterexample_c4 :
    matchFunction barName discardLine = true
    ∧ List.isPrefixOf (barName ++ ['(']) discardLine = true
    ∧ containsSub discardLine ('.' :: barName) = true
    ∧ classifyUsage discardLine barName = none := by
  decide

/-- C4 (amended): whenever the five earlier patterns fail and the
bare-function pattern matches, the match is discarded — and the line
reported as unmatched, the function pattern being the last one tried — if
and only if the line contains a dot immediately followed by the symbol
name anywhere; otherwise the line classifies as a function call. -/
theorem runPatterns_function_discard_c4 (line name : List Char)
    (h1 : matchDefinition name line = false)
    (h2 : matchDecorator name line = false)
    (h3 : matchInstance name line = false)
    (h4 : matchClass name line = false)
    (h5 : matchStatic name line = false)
    (h6 : matchFunction name line = true) :
    runPatterns line name =
      if containsSub line ('.' :: name) then none
      else some CallType.CallTypeFunction := by
  cases hc : containsSub line ('.' :: name) <;>
    simp [runPatterns, h1, h2, h3, h4, h5, h6, hc]

/-- C4 (witness): the amended theorem applied to the bare line `bar()`,
where no dot-name occurrence exists and the classification is a function
call. -/
theorem runPatterns_function_discard_c4_witness :
    runPatterns bareBarLine barName =
      if containsSub bareBarLine ('.' :: barName) then none
      else some CallType.CallTypeFunction :=
  runPatterns_function_discard_c4 bareBarLine barName
    (by decide) (by decide) (by decide) (by decide) (by decide) (by decide)

theorem ltStr_irrefl (l : List Char) : ltStr l l = false := by
  induction l with
  | nil => rfl
  | cons c cs ih => simp [ltStr, ih]

/-- C3 (counterexample): sorting by key `file`, ascending, two records with
the same filename: the record named `b` at line 1 stays before the record
named `a` at line 2, although the names would order the other way (third
conjunct).  Equal primary keys under `file` are tie-broken by line number,
not by symbol name. -/
theorem sortResults_file_tiebreak_counterexample_c3 :
    SortResults [recTieB, recTieA] sortKeyFile true = [recTieB, recTieA]
    ∧ recTieB.method.Filename = recTieA.method.Filename
    ∧ ltStr recTieA.method.Name recTieB.method.Name = true := by
  refine ⟨rfl, rfl, by decide⟩

/-- C3 (amended): the secondary tie-break of the `SortResults` comparator
depends on the key: `usages` breaks equal totals by symbol name ascending;
`file` breaks equal filenames by line number ascending, not by name; and
`name` applies no secondary tie-break at all (equal names compare as
unordered). -/
theorem lessRecords_tiebreaks_c3 (ri rj : MethodUsage) :
    (ri.TotalUsages = rj.TotalUsages →
      lessRecords sortKeyUsages ri rj = ltStr ri.method.Name rj.method.Name)
    ∧ (ri.method.Filename = rj.method.Filename →
      lessRecords sortKeyFile ri rj = decide (ri.method.LineNo < rj.method.LineNo))
    ∧ (ri.method.Name = rj.method.Name →
      lessRecords sortKeyName ri rj = false) := by
  refine ⟨fun h => ?_, fun h => ?_, fun h => ?_⟩
  · unfold lessRecords
    rw [if_neg (by decide), if_neg (by decide), if_pos rfl, if_pos h]
  · unfold lessRecords
    rw [if_neg (by decide), if_pos rfl, if_pos h]
  · unfold lessRecords
    rw [if_pos rfl, h, ltStr_irrefl]

/-- C3 (witness): the amended theorem applied to the two concrete records
with equal totals: under the `usages` key the comparator reduces to the
name comparison. -/
theorem lessRecords_tiebreaks_c3_witness :
    lessRecords sortKeyUsages recTieB recTieA
      = ltStr recTieB.method.Name recTieA.method.Name :=
  (lessRecords_tiebreaks_c3 recTieB recTieA).1 rfl

/-- C6: the search exit status meaning "no matches" (ripgrep exit code 1)
yields a successful empty raw-match list, and hence a record with zero
usages built through the normal parsing path; any other search failure
(another non-zero exit code, or a failure to run the binary at all) makes
`analyzeOne` emit the empty `MethodUsage` for that definition; and the run
continues for every other definition — `AnalyzeMethodUsages` produces one
record per input regardless of the outcomes. -/
theorem analyze_search_failures_c6 (filters : FileFilter) (m : Method) :
    searchMethodUsages (RgOutcome.exitCode 1) = some []
    ∧ analyzeOne filters m (RgOutcome.exitCode 1)
        = { method := m, Usages := [], UsagesByType := fun _ => 0, TotalUsages := 0 }
    ∧ (∀ c : Int, c ≠ 1 →
        analyzeOne filters m (RgOutcome.exitCode c)
          = { method := m, Usages := [], UsagesByType := fun _ => 0, TotalUsages := 0 })
    ∧ analyzeOne filters m RgOutcome.execFail
        = { method := m, Usages := [], UsagesByType := fun _ => 0, TotalUsages := 0 }
    ∧ ∀ inputs : List (Method × RgOutcome),
        (AnalyzeMethodUsages inputs filters).length = inputs.length := by
  refine ⟨rfl, rfl, fun c hc => ?_, rfl, fun inputs => ?_⟩
  · simp [analyzeOne, searchMethodUsages, hc]
  · simp [AnalyzeMethodUsages]

/-- C6 (witness): an unexpected exit code 2 yields the empty record for the
sample method. -/
theorem analyze_search_failures_c6_witness :
    analyzeOne noFilters wMethod (RgOutcome.exitCode 2)
      = { method := wMethod, Usages := [], UsagesByType := fun _ => 0,
          TotalUsages := 0 } :=
  (analyze_search_failures_c6 noFilters wMethod).2.2.1 2 (by decide)

theorem sumByType_step (m : CallType → Nat) (u : Usage) :
    sumByType (countByTypeStep m u) = sumByType m + 1 := by
  cases hu : u.callType <;>
    simp [sumByType, GetCallTypeOrder, countByTypeStep, hu] <;> omega

theorem sumByType_foldl (usages : List Usage) (m : CallType → Nat) :
    sumByType (usages.foldl countByTypeStep m) = sumByType m + usages.length := by
  induction usages generalizing m with
  | nil => simp
  | cons u us ih => simp [List.foldl_cons, ih, sumByType_step]; omega

/-- C7: every record produced by `AnalyzeMethodUsages` has `TotalUsages`
equal to the length of its `Usages` sequence and to the sum, over all six
call types, of its per-type counts. -/
theorem totalUsages_consistent_c7 (inputs : List (Method × RgOutcome))
    (filters : FileFilter) (r : MethodUsage)
    (hr : r ∈ AnalyzeMethodUsages inputs filters) :
    r.TotalUsages = r.Usages.length
    ∧ r.TotalUsages = sumByType r.UsagesByType := by
  rcases List.mem_map.mp hr with ⟨p, hp, rfl⟩
  cases hso : searchMethodUsages p.2 with
  | none => simp [analyzeOne, hso, sumByType, GetCallTypeOrder]
  | some raws =>
    have hsum := sumByType_foldl (ParseUsages raws p.1.Name filters p.1.Filename)
      (fun _ => 0)
    simp [sumByType, GetCallTypeOrder] at hsum
    simp [analyzeOne, hso, sumByType, GetCallTypeOrder, hsum]

/-- C7 (witness): the invariant instantiated on the record the sample
two-match `rg` output produces for the sample method. -/
theorem totalUsages_consistent_c7_witness :
    (analyzeOne noFilters wMethod (RgOutcome.output sampleRgOut)).TotalUsages
      = (analyzeOne noFilters wMethod (RgOutcome.output sampleRgOut)).Usages.length
    ∧ (analyzeOne noFilters wMethod (RgOutcome.output sampleRgOut)).TotalUsages
      = sumByType (analyzeOne noFilters wMethod (RgOutcome.output sampleRgOut)).UsagesByType :=
  totalUsages_consistent_c7 [(wMethod, RgOutcome.output sampleRgOut)] noFilters _
    (List.mem_singleton.mpr rfl)

/-- C8: a record survives `FilterByUsageCount` exactly when its total
usage count lies within the inclusive bounds, a negative bound meaning
that side is unbounded, each bound evaluated independently of the other:
the function equals a filter by that predicate. -/
theorem filterByUsageCount_bounds_c8 (results : List MethodUsage)
    (minUsages maxUsages : Int) :
    FilterByUsageCount results minUsages maxUsages =
      results.filter (fun r =>
        decide ((minUsages < 0 ∨ minUsages ≤ (r.TotalUsages : Int))
          ∧ (maxUsages < 0 ∨ (r.TotalUsages : Int) ≤ maxUsages))) := by
  induction results with
  | nil => rfl
  | cons r rs ih =>
    by_cases h1 : minUsages ≥ 0 ∧ (r.TotalUsages : Int) < minUsages
    · have hp : ¬((minUsages < 0 ∨ minUsages ≤ (r.TotalUsages : Int))
          ∧ (maxUsages < 0 ∨ (r.TotalUsages : Int) ≤ maxUsages)) := by omega
      simp [FilterByUsageCount, List.filter_cons, h1, hp, ih]
    · by_cases h2 : maxUsages ≥ 0 ∧ (r.TotalUsages : Int) > maxUsages
      · have hp : ¬((minUsages < 0 ∨ minUsages ≤ (r.TotalUsages : Int))
            ∧ (maxUsages < 0 ∨ (r.TotalUsages : Int) ≤ maxUsages)) := by omega
        simp [FilterByUsageCount, List.filter_cons, h1, h2, hp, ih]
      · have hp : (minUsages < 0 ∨ minUsages ≤ (r.TotalUsages : Int))
            ∧ (maxUsages < 0 ∨ (r.TotalUsages : Int) ≤ maxUsages) := by omega
        simp [FilterByUsageCount, List.filter_cons, h1, h2, hp, ih]

/-- C10: `FilterByUsageCount` returns a sublist of its input: every
surviving record is one of the input records, unmodified, and the
surviving records keep their original relative order. -/
theorem filterByUsageCount_sublist_c10 (results : List MethodUsage)
    (minUsages maxUsages : Int) :
    (FilterByUsageCount results minUsages maxUsages).Sublist results := by
  induction results with
  | nil => exact List.Sublist.refl _
  | cons r rs ih =>
    simp only [FilterByUsageCount]
    split
    · exact ih.cons r
    · split
      · exact ih.cons r
      · exact ih.cons₂ r

theorem mem_methodsOfLines (path name l : List Char) (filters : MethodFilter)
    (hskip : (filters.SkipPrivate && isPrivateMethod name) = false)
    (hmatch : findDefMatch l = some name) :
    ∀ (ls : List (List Char)) (start i : Nat), ls.get? i = some l →
      (⟨name, path, start + i + 1⟩ : Method) ∈ methodsOfLines path filters start ls := by
  intro ls
  induction ls with
  | nil => intro start i h; simp at h
  | cons hd tl ih =>
    intro start i hget
    cases i with
    | zero =>
      simp only [List.get?] at hget
      cases hget
      simp [methodsOfLines, hmatch, hskip]
    | succ j =>
      simp only [List.get?] at hget
      have hmem := ih (start + 1) j hget
      have harith : start + 1 + j + 1 = start + (j + 1) + 1 := by omega
      rw [harith] at hmem
      cases hm : findDefMatch hd with
      | none => simpa [methodsOfLines, hm] using hmem
      | some nm =>
        simp only [methodsOfLines, hm]
        split
        · exact hmem
        · exact List.mem_cons_of_mem _ hmem

theorem mem_FindMethods (filters : MethodFilter) (m : Method) (f : FileInput)
    (hm : m ∈ fileMethods filters f) :
    ∀ files : List FileInput, f ∈ files → m ∈ FindMethods files filters := by
  intro files
  induction files with
  | nil => intro h; cases h
  | cons g gs ih =>
    intro hf
    rcases List.mem_cons.mp hf with rfl | hf'
    · exact List.mem_append.mpr (Or.inl hm)
    · exact List.mem_append.mpr (Or.inr (ih hf'))

/-- C9: for every readable file among the inputs whose 1-based line `N`
(with `N > 0`) reads `def foo():`, `FindMethods` returns a `Method` named
`foo` for that file with line number `N`, whatever the filters. -/
theorem findMethods_def_foo_c9 (files : List FileInput) (filters : MethodFilter)
    (f : FileInput) (data : List Char) (N : Nat)
    (hf : f ∈ files) (hc : f.content = some data) (hN : 0 < N)
    (hline : (splitLines data).get? (N - 1) = some defFooLine) :
    (⟨fooName, f.Path, N⟩ : Method) ∈ FindMethods files filters := by
  have hskip : (filters.SkipPrivate && isPrivateMethod fooName) = false := by
    rw [show isPrivateMethod fooName = false from rfl, Bool.and_false]
  have hmem := mem_methodsOfLines f.Path fooName defFooLine filters hskip
    (by decide) (splitLines data) 0 (N - 1) hline
  have harith : 0 + (N - 1) + 1 = N := by omega
  rw [harith] at hmem
  have hfile : (⟨fooName, f.Path, N⟩ : Method) ∈ fileMethods filters f := by
    simpa [fileMethods, hc] using hmem
  exact mem_FindMethods filters _ f hfile files hf

/-- C9 (witness): the file `a.py` whose second line is `def foo():` yields
the `Method` `foo` at line 2. -/
theorem findMethods_def_foo_c9_witness :
    (⟨fooName, aPyPath, 2⟩ : Method) ∈ FindMethods [w9file] ⟨false⟩ :=
  findMethods_def_foo_c9 [w9file] ⟨false⟩ w9file w9data 2
    (List.mem_singleton.mpr rfl) rfl (by decide) (by decide)

end Finder

